import Mathlib

/-!
Shallow embedding of `apple_xml_to_spotify.py` (Apple Music XML → Spotify
playlist importer) and verification of its specification claims.

The embedding mirrors the Python source function by function:
* `load_apple_xml` — the library reader (plist parsing abstracted to a
  structured input, HTML-unescaping abstracted to a string function argument);
* `search_track` — the three-pass remote search matcher, with the remote
  service modelled as an oracle from queries to responses and the 429
  retry handled per attempt;
* `add_tracks_in_batches`, `clear_playlist`, `find_user_playlist_by_name` —
  the playlist synchronizer, with remote playlists modelled as lists;
* `main` — the run driver, modelled as a function producing an exit code
  and the trace of remote write operations.

Python string truthiness (`if s:`) is modelled as non-emptiness, integer
truthiness as being nonzero, and `Optional` values as `Option`.
-/

namespace SpotifyImporter

/-! ## Library reader (`load_apple_xml`) -/

/-- A raw track entry from the plist `Tracks` table: `Track ID`, `Name`,
`Artist` (absent fields default to the empty string, as `t.get("Name", "")`
does) and `Year` (kept only when the plist value is an integer). -/
structure ARaw where
  trackID : Option Int
  rawName : String
  rawArtist : String
  rawYear : Option Int
  deriving Repr, DecidableEq

/-- A playlist entry from the plist `Playlists` list: its `Name` and the
`Track ID` fields of its `Playlist Items` (absent ids are `none`). -/
structure APlaylist where
  pname : String
  pitems : List (Option Int)
  deriving Repr, DecidableEq

/-- The structured plist document: the `Tracks` mapping as an ordered
association list (Python dicts preserve insertion order) and the
`Playlists` list. -/
structure Plist where
  tracks : List (Int × ARaw)
  playlists : List APlaylist
  deriving Repr, DecidableEq

/-- A normalized track record `{"name": ..., "artist": ..., "year": ...}`. -/
structure TrackRec where
  name : String
  artist : String
  year : Option Int
  deriving Repr, DecidableEq

/-- The whitespace characters removed by Python's `str.strip()`. -/
def pySpace (c : Char) : Bool :=
  c == ' ' || c == '\t' || c == '\n' || c == '\r'
    || c == Char.ofNat 11 || c == Char.ofNat 12

/-- Python's `str.strip()`: drop leading and trailing whitespace. -/
def pyStrip (s : String) : String :=
  String.mk (((s.data.dropWhile pySpace).reverse.dropWhile pySpace).reverse)

/-- Python's `str.lower()` on the ASCII letters the matching relies on:
lowercase each character. -/
def pyLower (s : String) : String :=
  String.mk (s.data.map Char.toLower)

/-- Python truthiness of an optional string (`None` and `""` are falsy). -/
def strTruthy : Option String → Bool
  | none => false
  | some s => s ≠ ""

/-- Python truthiness of an optional integer (`None` and `0` are falsy). -/
def intTruthy : Option Int → Bool
  | none => false
  | some n => n ≠ 0

/-- Insertion into a Python dict modelled as an ordered association list:
an existing key keeps its position and gets the new value, a fresh key is
appended. -/
def insertKeep (m : List (Int × ARaw)) (k : Int) (v : ARaw) : List (Int × ARaw) :=
  if m.any (fun p => p.1 == k) then
    m.map (fun p => if p.1 == k then (k, v) else p)
  else
    m ++ [(k, v)]

/-- `id_to_track[int(t.get("Track ID", _id))] = t` over the `Tracks` table. -/
def buildIdMap (tracks : List (Int × ARaw)) : List (Int × ARaw) :=
  tracks.foldl (fun m p => insertKeep m (p.2.trackID.getD p.1) p.2) []

/-- `normalize_track`: HTML-unescape (abstracted as `unesc`) and strip the
name and artist; keep the year only when it is an integer. -/
def normalize_track (unesc : String → String) (t : ARaw) : TrackRec :=
  { name := pyStrip (unesc t.rawName)
    artist := pyStrip (unesc t.rawArtist)
    year := t.rawYear }

/-- Selection of the preferred playlist: the first whose stripped,
lowercased name equals the stripped, lowercased requested name. -/
def selectPlaylist (playlists : List APlaylist) (pref : Option String) : Option APlaylist :=
  if strTruthy pref then
    playlists.find? (fun p =>
      pyLower (pyStrip p.pname) == pyLower (pyStrip (pref.getD "")))
  else
    none

/-- Association-list lookup mirroring `tid in id_to_track` / `id_to_track[tid]`. -/
def lookupId (m : List (Int × ARaw)) (k : Int) : Option ARaw :=
  (m.find? (fun p => p.1 == k)).map (fun p => p.2)

/-- The pre-deduplication `items` list: either the selected playlist's items
resolved through the id map (ids that are falsy or unknown are skipped), or
every value of the id map in order. -/
def sourceItems (unesc : String → String) (pl : Plist) (pref : Option String) :
    List TrackRec :=
  let idMap := buildIdMap pl.tracks
  match selectPlaylist pl.playlists pref with
  | some sel =>
      sel.pitems.foldr (fun tid acc =>
        if intTruthy tid then
          match lookupId idMap (tid.getD 0) with
          | some t => normalize_track unesc t :: acc
          | none => acc
        else acc) []
  | none => idMap.map (fun p => normalize_track unesc p.2)

/-- The case-insensitive deduplication key `(it["name"].lower(), it["artist"].lower())`. -/
def trackKey (it : TrackRec) : String × String :=
  (pyLower it.name, pyLower it.artist)

/-- The dedup-keeping-order loop: a record survives when its name and artist
are truthy (non-empty) and its key has not been seen. -/
def dedupKeep (seen : List (String × String)) : List TrackRec → List TrackRec
  | [] => []
  | it :: rest =>
      if it.name ≠ "" ∧ it.artist ≠ "" ∧ trackKey it ∉ seen then
        it :: dedupKeep (trackKey it :: seen) rest
      else
        dedupKeep seen rest

/-- `load_apple_xml`: resolve the source sequence, then deduplicate keeping
first occurrences. -/
def load_apple_xml (unesc : String → String) (pl : Plist) (pref : Option String) :
    List TrackRec :=
  dedupKeep [] (sourceItems unesc pl pref)

/-! ## Remote search matcher (`search_track`) -/

/-- A candidate track returned by the search endpoint: its id, name, and the
names of its listed artists. -/
structure Candidate where
  cid : String
  cname : String
  cartists : List String
  deriving Repr, DecidableEq

/-- The three query shapes built by `search_track`, kept as structured data. -/
inductive Query where
  | strictYear (name artist : String) (year : Int)
  | strict (name artist : String)
  | loose (name artist : String)
  deriving Repr, DecidableEq

/-- One response of the remote search service: a result page, or a
`SpotifyException` with an HTTP status and an optional `Retry-After` header. -/
inductive SvcResp where
  | ok (items : List Candidate)
  | err (status : Nat) (retryAfter : Option Nat)
  deriving Repr, DecidableEq

/-- The query list of `search_track`: the year-constrained strict query is
prepended only when the year is truthy, then the strict query, then the
loose free-text query. -/
def buildQueries (name artist : String) (year : Option Int) : List Query :=
  (if intTruthy year then [Query.strictYear name artist (year.getD 0)] else [])
    ++ [Query.strict name artist, Query.loose name artist]

/-- One query attempt with the 429 retry: given the first response and the
response to the single retry, return the outcome (result page or propagated
status) together with the list of sleep durations performed.  A 429 first
response sleeps `Retry-After` (default 2) plus one second and reissues the
query once; the retry's outcome — page or exception — is final. -/
def searchAttempt (r1 r2 : SvcResp) : (Except Nat (List Candidate)) × List Nat :=
  match r1 with
  | .ok items => (.ok items, [])
  | .err status retryAfter =>
      if status = 429 then
        let retry := retryAfter.getD 2
        match r2 with
        | .ok items => (.ok items, [retry + 1])
        | .err s2 _ => (.error s2, [retry + 1])
      else
        (.error status, [])

/-- How many times the query is issued in one attempt: twice after a 429,
once otherwise. -/
def attemptIssueCount (r1 : SvcResp) : Nat :=
  match r1 with
  | .ok _ => 1
  | .err status _ => if status = 429 then 2 else 1

/-- The exact-match test: candidate name equals the record name after
strip+lowercase, and the record artist (strip+lowercase) appears among the
candidate's artists (strip+lowercase). -/
def exactMatch (name artist : String) (it : Candidate) : Bool :=
  pyLower (pyStrip name) == pyLower (pyStrip it.cname)
    && (it.cartists.map (fun a => pyLower (pyStrip a))).contains (pyLower (pyStrip artist))

/-- The per-query environment: for each query, the service's first response
and the response to the (at most one) retry. -/
def Env : Type := Query → SvcResp × SvcResp

/-- The attempt cascade of `search_track` over a list of queries.  Returns
the outcome (a propagated exception status, or an optional track id) and the
list of queries actually attempted. -/
def searchGo (env : Env) (name artist : String) :
    List Query → (Except Nat (Option String)) × List Query
  | [] => (.ok none, [])
  | q :: rest =>
      match searchAttempt (env q).1 (env q).2 with
      | (.error s, _) => (.error s, [q])
      | (.ok items, _) =>
          match items.find? (exactMatch name artist) with
          | some it => (.ok (some it.cid), [q])
          | none =>
              match items with
              | [] =>
                  let r := searchGo env name artist rest
                  (r.1, q :: r.2)
              | it0 :: _ => (.ok (some it0.cid), [q])

/-- `search_track`: run the cascade over the built query list. -/
def search_track (env : Env) (name artist : String) (year : Option Int) :
    (Except Nat (Option String)) × List Query :=
  searchGo env name artist (buildQueries name artist year)

/-- An error-free environment built from a results oracle: every query
succeeds on first issue with the oracle's page. -/
def pureEnv (res : Query → List Candidate) : Env :=
  fun q => (SvcResp.ok (res q), SvcResp.ok (res q))

/-! ## Batched writes (`add_tracks_in_batches`) -/

/-- The `for i in range(0, len(ids), 100)` chunking: successive slices of at
most 100 elements. -/
def chunk100 {α : Type} (l : List α) : List (List α) :=
  if l.isEmpty then [] else l.take 100 :: chunk100 (l.drop 100)
  termination_by l.length
  decreasing_by
    simp only [List.isEmpty_iff] at *
    cases l with
    | nil => simp_all
    | cons a t => simp [List.length_drop]; omega

/-- `add_tracks_in_batches`: the sequence of `playlist_add_items` calls, one
per chunk of at most 100 ids. -/
def add_tracks_in_batches (track_ids : List String) : List (List String) :=
  chunk100 track_ids

/-! ## Clearing a playlist (`clear_playlist`) -/

/-- The `track` object of a playlist item, carrying an optional `uri`. -/
structure TrackObj where
  uri : Option String
  deriving Repr, DecidableEq

/-- A playlist item: its `track` object may be absent (`it.get("track") or {}`
treats a missing or null track as an empty object). -/
structure PItem where
  itrack : Option TrackObj
  deriving Repr, DecidableEq

/-- The raw uri of an item's track, when the track and its uri exist. -/
def rawUri (it : PItem) : Option String :=
  it.itrack.bind (fun t => t.uri)

/-- The uri collected by the clearing loop: present only when the track
exists and its uri is truthy (non-empty), per `if uri: uris.append(uri)`. -/
def validUri (it : PItem) : Option String :=
  match rawUri it with
  | none => none
  | some u => if u = "" then none else some u

/-- The paginated read loop of `clear_playlist`: pages of 100 from the given
offset, stopping on an empty page or when the response has no `next` cursor
(modelled as: no items remain past this page), collecting truthy uris. -/
def collectUrisAux (l : List PItem) (offset : Nat) : List String :=
  let page := (l.drop offset).take 100
  if h : page.isEmpty then []
  else
    let us := page.filterMap validUri
    if offset + 100 < l.length then us ++ collectUrisAux l (offset + 100)
    else us
  termination_by l.length - offset
  decreasing_by
    rename_i hlt
    omega

/-- All uris collected by `clear_playlist` before issuing removals. -/
def collectUris (l : List PItem) : List String :=
  collectUrisAux l 0

/-- The removal batches issued by `clear_playlist`: the collected uris in
chunks of at most 100, one `playlist_remove_all_occurrences_of_items` call
per chunk. -/
def clearBatches (l : List PItem) : List (List String) :=
  chunk100 (collectUris l)

/-- Whether a removal call with uri batch `b` keeps item `it`: an item is
removed exactly when its track uri is among the batch's uris. -/
def keptBy (it : PItem) (b : List String) : Bool :=
  match rawUri it with
  | some u => !(b.contains u)
  | none => true

/-- Effect of one removal call: every occurrence of an item whose track uri
is among the batch's uris is removed. -/
def removeBatch (l : List PItem) (b : List String) : List PItem :=
  l.filter (fun it => keptBy it b)

/-- Effect of a sequence of removal calls, applied in order. -/
def applyRemovals (l : List PItem) (bs : List (List String)) : List PItem :=
  bs.foldl removeBatch l

/-- The playlist contents after `clear_playlist` runs on it. -/
def clear_playlist_final (l : List PItem) : List PItem :=
  applyRemovals l (clearBatches l)

/-! ## Locating an existing playlist (`find_user_playlist_by_name`) -/

/-- A playlist in the current user's library listing: id, name, owner id. -/
structure UPlaylist where
  upid : String
  upname : String
  ownerId : String
  deriving Repr, DecidableEq

/-- The paginated scan of `find_user_playlist_by_name`: pages of 50 by
ascending offset; inside a page, a name match owned by the current user is
returned immediately, and the first name match merely visible becomes the
fallback candidate; the loop stops on an empty or short page. -/
def findAux (lib : List UPlaylist) (uid nameLc : String) (offset : Nat)
    (candidate : Option String) : Option String :=
  let page := (lib.drop offset).take 50
  if h : page.isEmpty then candidate
  else
    match page.find? (fun p => pyLower (pyStrip p.upname) == nameLc && p.ownerId == uid) with
    | some p => some p.upid
    | none =>
        let cand' :=
          if candidate.isSome then candidate
          else (page.find? (fun p => pyLower (pyStrip p.upname) == nameLc)).map (fun p => p.upid)
        if page.length < 50 then cand'
        else findAux lib uid nameLc (offset + page.length) cand'
  termination_by lib.length - offset
  decreasing_by
    unfold_let page at *
    simp only [List.isEmpty_iff] at h
    have h1 : ((lib.drop offset).take 50).length ≤ lib.length - offset := by
      simp
    have h2 : 0 < ((lib.drop offset).take 50).length := List.length_pos.mpr h
    omega

/-- `find_user_playlist_by_name`: scan the user's playlists for an exact
case-insensitive name match, preferring one owned by the current user. -/
def find_user_playlist_by_name (lib : List UPlaylist) (uid name : String) :
    Option String :=
  findAux lib uid (pyLower (pyStrip name)) 0 none

/-! ## Run driver (`main`) -/

/-- A remote write operation issued by the run. -/
inductive WriteOp where
  | create (name : Option String) (pub : Bool) (desc : String)
  | addItems (pid : String) (chunk : List String)
  | removeItems (pid : String) (chunk : List String)
  deriving Repr, DecidableEq

/-- The command-line arguments relevant to control flow: `--spotify-name`,
`--use-existing`, `--mode replace`, `--public`. -/
structure Args where
  spotifyName : Option String
  useExisting : Option String
  modeReplace : Bool
  pub : Bool
  deriving Repr, DecidableEq

/-- The observable outcome of a run: a `sys.exit(code)`, an abort through an
uncaught service exception, or normal completion with found/miss counts. -/
inductive RunResult where
  | exited (code : Nat)
  | aborted (status : Nat)
  | finished (foundCount missCount : Nat)
  deriving Repr, DecidableEq

/-- The match phase of `main`: search each record in order, partitioning
into found ids and misses; a propagated exception aborts the run. -/
def searchAll (env : Env) : List TrackRec → Except Nat (List String × List TrackRec)
  | [] => .ok ([], [])
  | it :: rest =>
      match (search_track env it.name it.artist it.year).1 with
      | .error s => .error s
      | .ok (some sid) =>
          (searchAll env rest).map (fun r => (sid :: r.1, r.2))
      | .ok none =>
          (searchAll env rest).map (fun r => (r.1, it :: r.2))

/-- The fixed description used for created playlists. -/
def importDescription : String := "Imported from Apple Music XML"

/-- The tail of `main` after the target playlist is resolved: search all
records, then issue the batched add calls when anything was found. -/
def runAfterTarget (env : Env) (items : List TrackRec) (pid : String)
    (writes : List WriteOp) : RunResult × List WriteOp :=
  match searchAll env items with
  | .error s => (.aborted s, writes)
  | .ok (found, misses) =>
      let addWrites :=
        if found.isEmpty then []
        else (add_tracks_in_batches found).map (fun c => WriteOp.addItems pid c)
      (.finished found.length misses.length, writes ++ addWrites)

/-- `main`, modelled from the environment check onward: the record list
`items` is the output of `load_apple_xml`, `lib` is the user's playlist
library, `uid` the current user's id, `env` the search service, and
`plItems` the contents of remote playlists by id.  Returns the run outcome
and the trace of remote writes, in order. -/
def runMain (args : Args) (envOk : Bool) (items : List TrackRec)
    (lib : List UPlaylist) (uid : String) (env : Env)
    (plItems : String → List PItem) : RunResult × List WriteOp :=
  if ¬envOk then (.exited 2, [])
  else if items.isEmpty then (.exited 1, [])
  -- the unconditional `create_playlist(sp, playlist_name=args.spotify_name, ...)`
  -- at the top of the target-resolution phase is the first element of every
  -- write trace below
  else if strTruthy args.useExisting then
    if ¬ strTruthy (find_user_playlist_by_name lib uid (args.useExisting.getD "")) then
      (.exited 1, [WriteOp.create args.spotifyName args.pub importDescription])
    else
      runAfterTarget env items
        ((find_user_playlist_by_name lib uid (args.useExisting.getD "")).getD "")
        ([WriteOp.create args.spotifyName args.pub importDescription] ++
          (if args.modeReplace then
            (clearBatches
                (plItems ((find_user_playlist_by_name lib uid (args.useExisting.getD "")).getD ""))).map
              (fun c => WriteOp.removeItems
                ((find_user_playlist_by_name lib uid (args.useExisting.getD "")).getD "") c)
          else []))
  else if strTruthy args.spotifyName then
    runAfterTarget env items "created-1"
      ([WriteOp.create args.spotifyName args.pub importDescription] ++
        [WriteOp.create args.spotifyName args.pub importDescription])
  else
    (.exited 1, [WriteOp.create args.spotifyName args.pub importDescription])

/-- Recognizer for add/remove item writes, used to state "zero item
additions or removals". -/
def WriteOp.isItemWrite : WriteOp → Bool
  | .create _ _ _ => false
  | .addItems _ _ => true
  | .removeItems _ _ => true

/-! ## Lemmas about chunking -/

theorem chunk100_join {α : Type} (l : List α) : (chunk100 l).flatten = l := by
  rw [chunk100]
  split
  · next h =>
      simp only [List.isEmpty_iff] at h
      simp [h]
  · next h =>
      have ih := chunk100_join (l.drop 100)
      simp only [List.flatten_cons, ih]
      exact List.take_append_drop 100 l
  termination_by l.length
  decreasing_by
    simp only [List.isEmpty_iff] at *
    have hpos : 0 < l.length := List.length_pos.mpr (by assumption)
    simp only [List.length_drop]
    omega

theorem chunk100_mem_length {α : Type} (l : List α) :
    ∀ c ∈ chunk100 l, c.length ≤ 100 := by
  rw [chunk100]
  split
  · simp
  · next h =>
      intro c hc
      rcases List.mem_cons.mp hc with hc | hc
      · subst hc
        simpa using List.length_take_le 100 l
      · exact chunk100_mem_length (l.drop 100) c hc
  termination_by l.length
  decreasing_by
    simp only [List.isEmpty_iff] at *
    have hpos : 0 < l.length := List.length_pos.mpr (by assumption)
    simp only [List.length_drop]
    omega

theorem chunk100_count {α : Type} (l : List α) :
    (chunk100 l).length = (l.length + 99) / 100 := by
  rw [chunk100]
  split
  · next h =>
      simp only [List.isEmpty_iff] at h
      simp [h]
  · next h =>
      simp only [List.isEmpty_iff] at h
      have hpos : 0 < l.length := List.length_pos.mpr h
      have ih := chunk100_count (l.drop 100)
      simp only [List.length_cons, ih, List.length_drop]
      omega
  termination_by l.length
  decreasing_by
    simp only [List.isEmpty_iff] at *
    have hpos : 0 < l.length := List.length_pos.mpr (by assumption)
    simp only [List.length_drop]
    omega

/-- Claim C6: adding M matched ids (M ≥ 1) issues exactly ceil(M/100)
add calls, each carrying at most 100 ids, and the concatenation of the
batches in call order equals the input list. -/
theorem C6_add_tracks_in_batches (ids : List String) (h : 1 ≤ ids.length) :
    (add_tracks_in_batches ids).length = (ids.length + 99) / 100 ∧
    (∀ c ∈ add_tracks_in_batches ids, c.length ≤ 100) ∧
    (add_tracks_in_batches ids).flatten = ids :=
  ⟨chunk100_count ids, chunk100_mem_length ids, chunk100_join ids⟩

/-- Witness for C6 at the three-element id list. -/
theorem C6_add_tracks_in_batches_witness :
    1 ≤ (["idA", "idB", "idC"] : List String).length ∧
    ((add_tracks_in_batches ["idA", "idB", "idC"]).length
        = ((["idA", "idB", "idC"] : List String).length + 99) / 100 ∧
      (∀ c ∈ add_tracks_in_batches ["idA", "idB", "idC"], c.length ≤ 100) ∧
      (add_tracks_in_batches ["idA", "idB", "idC"]).flatten = ["idA", "idB", "idC"]) :=
  ⟨by decide, C6_add_tracks_in_batches ["idA", "idB", "idC"] (by decide)⟩

/-! ## Lemmas about clearing -/

theorem collectUrisAux_eq (l : List PItem) (offset : Nat) :
    collectUrisAux l offset = (l.drop offset).filterMap validUri := by
  rw [collectUrisAux]
  split
  · next h =>
      simp only [List.isEmpty_iff, List.take_eq_nil_iff] at h
      have hnil : l.drop offset = [] := by
        rcases h with h | h <;> first | exact h | exact absurd h (by decide)
      simp [hnil]
  · next h =>
      split
      · next hlt =>
          have ih := collectUrisAux_eq l (offset + 100)
          simp only [ih]
          rw [← List.filterMap_append]
          congr 1
          have hdd : (l.drop offset).drop 100 = l.drop (offset + 100) := by
            rw [List.drop_drop]
          rw [← hdd]
          exact List.take_append_drop 100 (l.drop offset)
      · next hge =>
          have hlen : (l.drop offset).length ≤ 100 := by
            simp only [List.length_drop]
            omega
          rw [List.take_of_length_le hlen]
  termination_by l.length - offset
  decreasing_by
    omega

theorem collectUris_eq (l : List PItem) :
    collectUris l = l.filterMap validUri := by
  rw [collectUris, collectUrisAux_eq]
  rfl

theorem applyRemovals_eq_filter (bs : List (List String)) (l : List PItem) :
    applyRemovals l bs = l.filter (fun it => bs.all (fun b => keptBy it b)) := by
  induction bs generalizing l with
  | nil => simp [applyRemovals]
  | cons b bs ih =>
      show applyRemovals (removeBatch l b) bs = _
      rw [ih, removeBatch, List.filter_filter]
      apply List.filter_congr
      intro it _
      simp only [List.all_cons]
      rw [Bool.and_comm]

theorem validUri_rawUri {it : PItem} {u : String} (h : validUri it = some u) :
    rawUri it = some u ∧ u ≠ "" := by
  unfold validUri at h
  split at h
  · exact absurd h (by simp)
  · next u' heq =>
      split at h
      · exact absurd h (by simp)
      · next hne =>
          simp only [Option.some.injEq] at h
          subst h
          exact ⟨heq, hne⟩

theorem mem_clearBatches_mem_collect {l : List PItem} {b : List String}
    {u : String} (hb : b ∈ clearBatches l) (hu : u ∈ b) :
    u ∈ collectUris l := by
  have := chunk100_join (collectUris l)
  rw [clearBatches] at hb
  rw [← this]
  exact List.mem_flatten.mpr ⟨b, hb, hu⟩

theorem length_filterMap_validUri (l : List PItem)
    (h : ∀ it ∈ l, (validUri it).isSome) :
    (l.filterMap validUri).length = l.length := by
  induction l with
  | nil => rfl
  | cons it rest ih =>
      have hit := h it (List.mem_cons_self it rest)
      rcases Option.isSome_iff_exists.mp hit with ⟨u, hu⟩
      simp only [List.filterMap_cons, hu, List.length_cons]
      rw [ih (fun x hx => h x (List.mem_cons_of_mem it hx))]

/-- Claim C7 (amended: all N items carry a truthy track uri): the clearing
operation collects exactly the playlist's track uris via the paginated read,
issues ceil(N/100) removal calls of at most 100 uris each, and afterwards
the playlist contains zero items. -/
theorem C7_clear_playlist (l : List PItem)
    (hall : ∀ it ∈ l, (validUri it).isSome) :
    collectUris l = l.filterMap validUri ∧
    (clearBatches l).length = (l.length + 99) / 100 ∧
    (∀ b ∈ clearBatches l, b.length ≤ 100) ∧
    clear_playlist_final l = [] := by
  refine ⟨collectUris_eq l, ?_, ?_, ?_⟩
  · rw [clearBatches, chunk100_count, collectUris_eq, length_filterMap_validUri l hall]
  · exact chunk100_mem_length (collectUris l)
  · rw [clear_playlist_final, applyRemovals_eq_filter]
    rw [List.filter_eq_nil_iff]
    intro it hmem
    have hit := hall it hmem
    rcases Option.isSome_iff_exists.mp hit with ⟨u, hu⟩
    rcases validUri_rawUri hu with ⟨hraw, _⟩
    have humem : u ∈ collectUris l := by
      rw [collectUris_eq]
      exact List.mem_filterMap.mpr ⟨it, hmem, hu⟩
    have : u ∈ (chunk100 (collectUris l)).flatten := by
      rw [chunk100_join]
      exact humem
    rcases List.mem_flatten.mp this with ⟨b, hb, hub⟩
    simp only [List.all_eq_true, Bool.not_eq_true]
    push_neg
    refine ⟨b, hb, ?_⟩
    rw [keptBy, hraw]
    simp [hub]

/-- Witness for C7 at a one-item playlist bearing a track uri. -/
theorem C7_clear_playlist_witness :
    (∀ it ∈ [PItem.mk (some (TrackObj.mk (some "spotify:track:1")))],
        (validUri it).isSome) ∧
    (collectUris [PItem.mk (some (TrackObj.mk (some "spotify:track:1")))]
        = [PItem.mk (some (TrackObj.mk (some "spotify:track:1")))].filterMap validUri ∧
      (clearBatches [PItem.mk (some (TrackObj.mk (some "spotify:track:1")))]).length
        = (([PItem.mk (some (TrackObj.mk (some "spotify:track:1")))] : List PItem).length + 99) / 100 ∧
      (∀ b ∈ clearBatches [PItem.mk (some (TrackObj.mk (some "spotify:track:1")))],
          b.length ≤ 100) ∧
      clear_playlist_final [PItem.mk (some (TrackObj.mk (some "spotify:track:1")))] = []) :=
  ⟨by decide, C7_clear_playlist _ (by decide)⟩

/-- Counterexample to claim C7 as stated: a playlist holding one item whose
track is absent (a local track) has N = 1, but the clearing operation
issues zero removal calls — not ceil(1/100) = 1 — and the item remains. -/
theorem C7_counterexample :
    ([PItem.mk none] : List PItem).length = 1 ∧
    (clearBatches [PItem.mk none]).length = 0 ∧
    (0 : Nat) ≠ (1 + 99) / 100 ∧
    clear_playlist_final [PItem.mk none] = [PItem.mk none] := by
  have hc : collectUris [PItem.mk none] = [] := by
    rw [collectUris_eq]
    rfl
  have hb : clearBatches [PItem.mk none] = [] := by
    rw [clearBatches, hc, chunk100]
    rfl
  refine ⟨rfl, by rw [hb]; rfl, by decide, ?_⟩
  rw [clear_playlist_final, hb]
  rfl

/-- Claim C10: during clearing, only items whose track carries a truthy uri
are collected; an item whose track is absent or lacks a truthy uri
contributes no uri to any removal batch and remains in the playlist after
the clear. -/
theorem C10_clear_skips_uriless (l : List PItem) (it : PItem)
    (hmem : it ∈ l) (hno : validUri it = none) :
    (∀ u ∈ collectUris l, ∃ x ∈ l, validUri x = some u ∧ u ≠ "") ∧
    (∀ b ∈ clearBatches l, ∀ u, rawUri it = some u → u ∉ b) ∧
    it ∈ clear_playlist_final l := by
  refine ⟨?_, ?_, ?_⟩
  · intro u hu
    rw [collectUris_eq] at hu
    rcases List.mem_filterMap.mp hu with ⟨x, hx, hvx⟩
    exact ⟨x, hx, hvx, (validUri_rawUri hvx).2⟩
  · intro b hb u hraw hub
    -- the item's raw uri must be empty, but every collected uri is non-empty
    have hue : u = "" := by
      rw [validUri, hraw] at hno
      by_contra hne
      simp [hne] at hno
    have humem : u ∈ collectUris l := mem_clearBatches_mem_collect hb hub
    rw [collectUris_eq] at humem
    rcases List.mem_filterMap.mp humem with ⟨x, _, hvx⟩
    exact (validUri_rawUri hvx).2 (hue ▸ rfl)
  · rw [clear_playlist_final, applyRemovals_eq_filter]
    apply List.mem_filter.mpr
    refine ⟨hmem, ?_⟩
    simp only [List.all_eq_true]
    intro b hb
    rw [keptBy]
    split
    · next u hraw =>
        have hue : u = "" := by
          rw [validUri, hraw] at hno
          by_contra hne
          simp [hne] at hno
        simp only [Bool.not_eq_true']
        by_contra hcon
        simp only [Bool.not_eq_false] at hcon
        have hub : u ∈ b := by simpa using hcon
        have humem : u ∈ collectUris l := mem_clearBatches_mem_collect hb hub
        rw [collectUris_eq] at humem
        rcases List.mem_filterMap.mp humem with ⟨x, _, hvx⟩
        exact (validUri_rawUri hvx).2 hue
    · rfl

/-- Witness for C10 at a two-item playlist whose first item has no track. -/
theorem C10_clear_skips_uriless_witness :
    (PItem.mk none ∈
        [PItem.mk none, PItem.mk (some (TrackObj.mk (some "spotify:track:2")))] ∧
      validUri (PItem.mk none) = none) ∧
    ((∀ u ∈ collectUris
          [PItem.mk none, PItem.mk (some (TrackObj.mk (some "spotify:track:2")))],
        ∃ x ∈ [PItem.mk none, PItem.mk (some (TrackObj.mk (some "spotify:track:2")))],
          validUri x = some u ∧ u ≠ "") ∧
      (∀ b ∈ clearBatches
          [PItem.mk none, PItem.mk (some (TrackObj.mk (some "spotify:track:2")))],
        ∀ u, rawUri (PItem.mk none) = some u → u ∉ b) ∧
      PItem.mk none ∈ clear_playlist_final
        [PItem.mk none, PItem.mk (some (TrackObj.mk (some "spotify:track:2")))]) :=
  ⟨⟨by decide, by decide⟩,
    C10_clear_skips_uriless _ _ (by decide) (by decide)⟩

/-! ## Rate-limit handling -/

/-- Claim C8: a query attempt that first receives a rate-limit response
(status 429 with a `Retry-After` of t) sleeps t + 1 seconds and reissues
the same query exactly once: the retry's page is the attempt's result, and
an exception on the retry — even another 429 — propagates; a first response
with any non-429 error status propagates immediately, with no sleep and no
reissue. -/
theorem C8_retry_once (t : Nat) (r2 : SvcResp) (s : Nat) (ra : Option Nat)
    (hs : s ≠ 429) :
    (searchAttempt (SvcResp.err 429 (some t)) r2).2 = [t + 1] ∧
    attemptIssueCount (SvcResp.err 429 (some t)) = 2 ∧
    (∀ items, r2 = SvcResp.ok items →
      (searchAttempt (SvcResp.err 429 (some t)) r2).1 = Except.ok items) ∧
    (∀ s2 ra2, r2 = SvcResp.err s2 ra2 →
      (searchAttempt (SvcResp.err 429 (some t)) r2).1 = Except.error s2) ∧
    searchAttempt (SvcResp.err s ra) r2 = (Except.error s, []) ∧
    attemptIssueCount (SvcResp.err s ra) = 1 := by
  refine ⟨?_, rfl, ?_, ?_, ?_, ?_⟩
  · cases r2 <;> rfl
  · intro items h
    subst h
    rfl
  · intro s2 ra2 h
    subst h
    rfl
  · rw [searchAttempt]
    simp [hs]
  · rw [attemptIssueCount]
    simp [hs]

/-- Witness for C8: retry interval 5, retry answered with an empty page,
other error status 500. -/
theorem C8_retry_once_witness :
    (500 : Nat) ≠ 429 ∧
    ((searchAttempt (SvcResp.err 429 (some 5)) (SvcResp.ok [])).2 = [5 + 1] ∧
      attemptIssueCount (SvcResp.err 429 (some 5)) = 2 ∧
      (∀ items, SvcResp.ok [] = SvcResp.ok items →
        (searchAttempt (SvcResp.err 429 (some 5)) (SvcResp.ok [])).1 = Except.ok items) ∧
      (∀ s2 ra2, SvcResp.ok [] = SvcResp.err s2 ra2 →
        (searchAttempt (SvcResp.err 429 (some 5)) (SvcResp.ok [])).1 = Except.error s2) ∧
      searchAttempt (SvcResp.err 500 none) (SvcResp.ok []) = (Except.error 500, []) ∧
      attemptIssueCount (SvcResp.err 500 none) = 1) :=
  ⟨by decide, C8_retry_once 5 (SvcResp.ok []) 500 none (by decide)⟩

/-! ## Lemmas about the search cascade -/

theorem searchAttempt_pure (items : List Candidate) (r2 : SvcResp) :
    searchAttempt (SvcResp.ok items) r2 = (Except.ok items, []) := rfl

theorem searchGo_pure_cons (res : Query → List Candidate) (n a : String)
    (q : Query) (rest : List Query) :
    searchGo (pureEnv res) n a (q :: rest) =
      match (res q).find? (exactMatch n a) with
      | some it => (Except.ok (some it.cid), [q])
      | none =>
          match res q with
          | [] =>
              ((searchGo (pureEnv res) n a rest).1,
                q :: (searchGo (pureEnv res) n a rest).2)
          | it0 :: _ => (Except.ok (some it0.cid), [q]) := by
  rw [searchGo]
  rfl

theorem searchGo_pure_cons_empty (res : Query → List Candidate) (n a : String)
    {q : Query} (rest : List Query) (h : res q = []) :
    searchGo (pureEnv res) n a (q :: rest) =
      ((searchGo (pureEnv res) n a rest).1,
        q :: (searchGo (pureEnv res) n a rest).2) := by
  rw [searchGo_pure_cons, h]
  rfl

theorem searchGo_pure_cons_exact (res : Query → List Candidate) (n a : String)
    {q : Query} (rest : List Query) {it : Candidate}
    (h : (res q).find? (exactMatch n a) = some it) :
    searchGo (pureEnv res) n a (q :: rest) = (Except.ok (some it.cid), [q]) := by
  rw [searchGo_pure_cons, h]

theorem searchGo_pure_cons_first (res : Query → List Candidate) (n a : String)
    {q : Query} (rest : List Query) {it0 : Candidate} {tl : List Candidate}
    (hfind : (res q).find? (exactMatch n a) = none) (hne : res q = it0 :: tl) :
    searchGo (pureEnv res) n a (q :: rest) = (Except.ok (some it0.cid), [q]) := by
  rw [searchGo_pure_cons, hfind, hne]

theorem searchGo_pure_append_empty (res : Query → List Candidate) (n a : String)
    (l₁ l₂ : List Query) (h : ∀ p ∈ l₁, res p = []) :
    searchGo (pureEnv res) n a (l₁ ++ l₂) =
      ((searchGo (pureEnv res) n a l₂).1,
        l₁ ++ (searchGo (pureEnv res) n a l₂).2) := by
  induction l₁ with
  | nil => rfl
  | cons q l₁ ih =>
      have hq : res q = [] := h q (List.mem_cons_self q l₁)
      have hrest : ∀ p ∈ l₁, res p = [] :=
        fun p hp => h p (List.mem_cons_of_mem q hp)
      rw [List.cons_append, searchGo_pure_cons_empty res n a (l₁ ++ l₂) hq,
        ih hrest]
      rfl

theorem searchGo_pure_issued (res : Query → List Candidate) (n a : String)
    (qs : List Query) :
    (searchGo (pureEnv res) n a qs).2 =
      qs.takeWhile (fun q => (res q).isEmpty)
        ++ (qs.dropWhile (fun q => (res q).isEmpty)).take 1 := by
  induction qs with
  | nil => rfl
  | cons q rest ih =>
      by_cases hq : res q = []
      · rw [searchGo_pure_cons_empty res n a rest hq]
        show q :: (searchGo (pureEnv res) n a rest).2 = _
        rw [ih, List.takeWhile_cons, List.dropWhile_cons]
        simp [hq]
      · have hbe : (res q).isEmpty = false := by
          simpa [List.isEmpty_iff] using hq
        have hiss : (searchGo (pureEnv res) n a (q :: rest)).2 = [q] := by
          rcases hne : res q with _ | ⟨it0, tl⟩
          · exact absurd hne hq
          · rcases hfind : (res q).find? (exactMatch n a) with _ | it
            · rw [searchGo_pure_cons_first res n a rest hfind hne]
            · rw [searchGo_pure_cons_exact res n a rest hfind]
        rw [hiss, List.takeWhile_cons, List.dropWhile_cons]
        simp [hbe]

/-! ## Matcher claims -/

/-- Claim C3 (amended: the guarantee holds for the first attempt that
returns any candidates, i.e. when every earlier attempt returned zero
candidates): if that attempt's candidates contain an exact match — equal
case-insensitive title and the record's artist among the candidate's listed
artists — the matcher returns the (first) exact-matching candidate's id,
never a looser candidate's id. -/
theorem C3_exact_match_priority (res : Query → List Candidate) (n a : String)
    (y : Option Int) (l₁ : List Query) (q : Query) (l₂ : List Query)
    (it : Candidate)
    (hsplit : buildQueries n a y = l₁ ++ q :: l₂)
    (hempty : ∀ p ∈ l₁, res p = [])
    (hfind : (res q).find? (exactMatch n a) = some it) :
    exactMatch n a it = true ∧
    (search_track (pureEnv res) n a y).1 = Except.ok (some it.cid) := by
  refine ⟨List.find?_some hfind, ?_⟩
  rw [search_track, hsplit, searchGo_pure_append_empty res n a l₁ (q :: l₂) hempty]
  show (searchGo (pureEnv res) n a (q :: l₂)).1 = _
  rw [searchGo_pure_cons_exact res n a l₂ hfind]

/-- The oracle of the C3 witness: the strict query finds nothing, the loose
query returns an exact match. -/
def c3wres : Query → List Candidate
  | Query.loose _ _ => [Candidate.mk "w-exact" "Tune" ["Band"]]
  | _ => []

/-- Witness for C3 (amended) with the strict attempt empty and the loose
attempt holding the exact match. -/
theorem C3_exact_match_priority_witness :
    (buildQueries "Tune" "Band" none
        = [Query.strict "Tune" "Band"] ++ Query.loose "Tune" "Band" :: [] ∧
      (∀ p ∈ [Query.strict "Tune" "Band"], c3wres p = []) ∧
      (c3wres (Query.loose "Tune" "Band")).find? (exactMatch "Tune" "Band")
        = some (Candidate.mk "w-exact" "Tune" ["Band"])) ∧
    (exactMatch "Tune" "Band" (Candidate.mk "w-exact" "Tune" ["Band"]) = true ∧
      (search_track (pureEnv c3wres) "Tune" "Band" none).1
        = Except.ok (some "w-exact")) :=
  ⟨⟨rfl, by decide, by decide⟩,
    C3_exact_match_priority c3wres "Tune" "Band" none
      [Query.strict "Tune" "Band"] (Query.loose "Tune" "Band") []
      (Candidate.mk "w-exact" "Tune" ["Band"]) rfl (by decide) (by decide)⟩

/-- The oracle of the C3 counterexample: the strict query returns one
non-matching candidate, the loose query would return an exact match. -/
def c3res : Query → List Candidate
  | Query.strict _ _ => [Candidate.mk "bad-id" "Different Song" ["Someone Else"]]
  | Query.loose _ _ => [Candidate.mk "exact-id" "Song" ["Artist"]]
  | _ => []

/-- Counterexample to claim C3 as stated: the loose attempt's candidates
contain an exact match with id "exact-id", yet — because the earlier strict
attempt returned a non-matching candidate — the matcher returns the looser
candidate's id "bad-id". -/
theorem C3_counterexample :
    exactMatch "Song" "Artist" (Candidate.mk "exact-id" "Song" ["Artist"]) = true ∧
    Candidate.mk "exact-id" "Song" ["Artist"] ∈ c3res (Query.loose "Song" "Artist") ∧
    exactMatch "Song" "Artist" (Candidate.mk "bad-id" "Different Song" ["Someone Else"]) = false ∧
    (search_track (pureEnv c3res) "Song" "Artist" none).1 = Except.ok (some "bad-id") ∧
    "bad-id" ≠ "exact-id" := by
  refine ⟨by decide, by decide, by decide, ?_, by decide⟩
  rfl

/-- Claim C4: the matcher issues at most three queries, in the priority
order year-constrained strict (only with a truthy year), strict, loose; the
attempts actually issued are exactly the leading zero-candidate attempts
plus the first attempt with candidates; for the first attempt with
candidates, an exact match is returned if present, otherwise the first
candidate; and the record is unmatched exactly when all attempts return
zero candidates. -/
theorem C4_matcher (res : Query → List Candidate) (n a : String)
    (y : Option Int) :
    (buildQueries n a y).length ≤ 3 ∧
    (intTruthy y = true →
      buildQueries n a y
        = [Query.strictYear n a (y.getD 0), Query.strict n a, Query.loose n a]) ∧
    (intTruthy y = false →
      buildQueries n a y = [Query.strict n a, Query.loose n a]) ∧
    (search_track (pureEnv res) n a y).2
      = (buildQueries n a y).takeWhile (fun q => (res q).isEmpty)
          ++ ((buildQueries n a y).dropWhile (fun q => (res q).isEmpty)).take 1 ∧
    (∀ l₁ q l₂, buildQueries n a y = l₁ ++ q :: l₂ → (∀ p ∈ l₁, res p = []) →
      (∀ it, (res q).find? (exactMatch n a) = some it →
        (search_track (pureEnv res) n a y).1 = Except.ok (some it.cid)) ∧
      ((res q).find? (exactMatch n a) = none → ∀ it0 tl, res q = it0 :: tl →
        (search_track (pureEnv res) n a y).1 = Except.ok (some it0.cid))) ∧
    ((∀ q ∈ buildQueries n a y, res q = []) →
      (search_track (pureEnv res) n a y).1 = Except.ok none) := by
  refine ⟨?_, ?_, ?_, ?_, ?_, ?_⟩
  · rw [buildQueries]
    cases intTruthy y <;> simp
  · intro h
    rw [buildQueries, h]
    rfl
  · intro h
    rw [buildQueries, h]
    rfl
  · exact searchGo_pure_issued res n a (buildQueries n a y)
  · intro l₁ q l₂ hsplit hempty
    constructor
    · intro it hfind
      rw [search_track, hsplit,
        searchGo_pure_append_empty res n a l₁ (q :: l₂) hempty]
      show (searchGo (pureEnv res) n a (q :: l₂)).1 = _
      rw [searchGo_pure_cons_exact res n a l₂ hfind]
    · intro hfind it0 tl hne
      rw [search_track, hsplit,
        searchGo_pure_append_empty res n a l₁ (q :: l₂) hempty]
      show (searchGo (pureEnv res) n a (q :: l₂)).1 = _
      rw [searchGo_pure_cons_first res n a l₂ hfind hne]
  · intro hall
    rw [search_track]
    have h := searchGo_pure_append_empty res n a (buildQueries n a y) [] hall
    rw [List.append_nil] at h
    rw [h]
    rfl

/-- The oracle of the C4 witness: the year query and strict query return
nothing, the loose query returns two candidates, no exact match among
them. -/
def c4wres : Query → List Candidate
  | Query.loose _ _ =>
      [Candidate.mk "first-id" "Tune (Live)" ["Band"],
        Candidate.mk "second-id" "Tune (Acoustic)" ["Band"]]
  | _ => []

/-- Witness for C4: with a year present, three queries are built; the first
two attempts are empty, the loose attempt has candidates but no exact
match, so the matcher issues all three queries and returns the first loose
candidate's id. -/
theorem C4_matcher_witness :
    (intTruthy (some 1999) = true ∧
      buildQueries "Tune" "Band" (some 1999)
        = [Query.strictYear "Tune" "Band" 1999, Query.strict "Tune" "Band"]
            ++ Query.loose "Tune" "Band" :: [] ∧
      (∀ p ∈ [Query.strictYear "Tune" "Band" 1999, Query.strict "Tune" "Band"],
        c4wres p = []) ∧
      (c4wres (Query.loose "Tune" "Band")).find? (exactMatch "Tune" "Band") = none ∧
      c4wres (Query.loose "Tune" "Band")
        = Candidate.mk "first-id" "Tune (Live)" ["Band"]
            :: [Candidate.mk "second-id" "Tune (Acoustic)" ["Band"]]) ∧
    (search_track (pureEnv c4wres) "Tune" "Band" (some 1999)).1
      = Except.ok (some "first-id") :=
  ⟨⟨by decide, rfl, by decide, by decide, rfl⟩,
    ((C4_matcher c4wres "Tune" "Band" (some 1999)).2.2.2.2.1
      [Query.strictYear "Tune" "Band" 1999, Query.strict "Tune" "Band"]
      (Query.loose "Tune" "Band") [] rfl (by decide)).2
      (by decide) (Candidate.mk "first-id" "Tune (Live)" ["Band"])
      [Candidate.mk "second-id" "Tune (Acoustic)" ["Band"]] rfl⟩

/-! ## Reader claims -/

theorem dedupKeep_sublist (seen : List (String × String)) (l : List TrackRec) :
    (dedupKeep seen l).Sublist l := by
  induction l generalizing seen with
  | nil => simp [dedupKeep]
  | cons it rest ih =>
      rw [dedupKeep]
      split
      · exact List.Sublist.cons₂ it (ih _)
      · exact List.Sublist.cons it (ih _)

theorem dedupKeep_valid (seen : List (String × String)) (l : List TrackRec) :
    ∀ r ∈ dedupKeep seen l, r.name ≠ "" ∧ r.artist ≠ "" := by
  induction l generalizing seen with
  | nil => simp [dedupKeep]
  | cons it rest ih =>
      intro r hr
      rw [dedupKeep] at hr
      split at hr
      · next hcond =>
          rcases List.mem_cons.mp hr with h | h
          · subst h
            exact ⟨hcond.1, hcond.2.1⟩
          · exact ih _ r h
      · exact ih _ r hr

theorem dedupKeep_not_seen (seen : List (String × String)) (l : List TrackRec) :
    ∀ r ∈ dedupKeep seen l, trackKey r ∉ seen := by
  induction l generalizing seen with
  | nil => simp [dedupKeep]
  | cons it rest ih =>
      intro r hr
      rw [dedupKeep] at hr
      split at hr
      · next hcond =>
          rcases List.mem_cons.mp hr with h | h
          · subst h
            exact hcond.2.2
          · intro hmem
            exact ih (trackKey it :: seen) r h (List.mem_cons_of_mem _ hmem)
      · exact ih seen r hr

theorem dedupKeep_pairwise (seen : List (String × String)) (l : List TrackRec) :
    (dedupKeep seen l).Pairwise (fun a b => trackKey a ≠ trackKey b) := by
  induction l generalizing seen with
  | nil => simp [dedupKeep]
  | cons it rest ih =>
      rw [dedupKeep]
      split
      · next hcond =>
          refine List.Pairwise.cons ?_ (ih _)
          intro b hb hkey
          exact dedupKeep_not_seen _ _ b hb (hkey ▸ List.mem_cons_self _ _)
      · exact ih seen

theorem dedupKeep_firstOcc (seen : List (String × String)) (l : List TrackRec) :
    ∀ r ∈ dedupKeep seen l,
      ∃ l₁ l₂, l = l₁ ++ r :: l₂ ∧
        ∀ x ∈ l₁, ¬(x.name ≠ "" ∧ x.artist ≠ "" ∧ trackKey x = trackKey r) := by
  induction l generalizing seen with
  | nil => simp [dedupKeep]
  | cons it rest ih =>
      intro r hr
      rw [dedupKeep] at hr
      split at hr
      · next hcond =>
          rcases List.mem_cons.mp hr with h | h
          · subst h
            exact ⟨[], rest, rfl, by simp⟩
          · rcases ih (trackKey it :: seen) r h with ⟨l₁, l₂, heq, hprop⟩
            refine ⟨it :: l₁, l₂, by rw [heq]; rfl, ?_⟩
            intro x hx
            rcases List.mem_cons.mp hx with hx | hx
            · subst hx
              intro hcon
              exact dedupKeep_not_seen _ _ r h
                (hcon.2.2 ▸ List.mem_cons_self _ _)
            · exact hprop x hx
      · next hcond =>
          rcases ih seen r hr with ⟨l₁, l₂, heq, hprop⟩
          refine ⟨it :: l₁, l₂, by rw [heq]; rfl, ?_⟩
          intro x hx
          rcases List.mem_cons.mp hx with hx | hx
          · subst hx
            intro hcon
            apply hcond
            refine ⟨hcon.1, hcon.2.1, ?_⟩
            rw [hcon.2.2]
            exact dedupKeep_not_seen seen rest r hr
          · exact hprop x hx

/-- Claim C5: for every input document and optional playlist name, the
reader's output has pairwise distinct case-insensitive `(title, artist)`
keys, contains no record with an empty title or artist, is a sublist of the
resolved source sequence (so relative order is preserved), and every
surviving record is the first occurrence of its key among the valid records
of the source sequence. -/
theorem C5_reader (unesc : String → String) (pl : Plist) (pref : Option String) :
    (load_apple_xml unesc pl pref).Pairwise
        (fun a b => trackKey a ≠ trackKey b) ∧
    (∀ r ∈ load_apple_xml unesc pl pref, r.name ≠ "" ∧ r.artist ≠ "") ∧
    (load_apple_xml unesc pl pref).Sublist (sourceItems unesc pl pref) ∧
    (∀ r ∈ load_apple_xml unesc pl pref,
      ∃ l₁ l₂, sourceItems unesc pl pref = l₁ ++ r :: l₂ ∧
        ∀ x ∈ l₁, ¬(x.name ≠ "" ∧ x.artist ≠ "" ∧ trackKey x = trackKey r)) :=
  ⟨dedupKeep_pairwise [] _, dedupKeep_valid [] _, dedupKeep_sublist [] _,
    dedupKeep_firstOcc [] _⟩

/-! ## Run-driver claims -/

theorem runAfterTarget_writes (env : Env) (items : List TrackRec) (pid : String)
    (ws : List WriteOp) :
    ∃ rest, (runAfterTarget env items pid ws).2 = ws ++ rest := by
  rw [runAfterTarget]
  cases h : searchAll env items with
  | error s =>
      exact ⟨[], (List.append_nil ws).symm⟩
  | ok p =>
      obtain ⟨found, misses⟩ := p
      exact ⟨_, rfl⟩

/-- Claim C9: every run that reaches the remote service (credentials
present, non-empty record list) issues, as its first remote write, the
creation of a playlist named by `--spotify-name` with the description
"Imported from Apple Music XML" — before the reuse/create branch is
evaluated, hence in reuse-mode runs, in runs that then create a second
playlist under the same name, and in runs that fail the usage check. -/
theorem C9_unconditional_create (args : Args) (items : List TrackRec)
    (lib : List UPlaylist) (uid : String) (env : Env)
    (plItems : String → List PItem) (hitems : items ≠ []) :
    (runMain args true items lib uid env plItems).2.head? =
      some (WriteOp.create args.spotifyName args.pub importDescription) := by
  have hie : ¬(items.isEmpty = true) := by
    simp [List.isEmpty_iff, hitems]
  rw [runMain, if_neg (by simp), if_neg hie]
  by_cases hue : strTruthy args.useExisting = true
  · rw [if_pos hue]
    by_cases hpid :
        strTruthy (find_user_playlist_by_name lib uid (args.useExisting.getD "")) = true
    · rw [if_neg (by simp [hpid])]
      obtain ⟨rest, hw⟩ := runAfterTarget_writes env items _ _
      rw [hw]
      rfl
    · rw [if_pos (by simp [hpid])]
      rfl
  · rw [if_neg hue]
    by_cases hsn : strTruthy args.spotifyName = true
    · rw [if_pos hsn]
      obtain ⟨rest, hw⟩ := runAfterTarget_writes env items _ _
      rw [hw]
      rfl
    · rw [if_neg hsn]
      rfl

/-- Witness for C9: a reuse-mode run over a one-record library with an
empty playlist library still opens its write trace with the creation call. -/
theorem C9_unconditional_create_witness :
    ([TrackRec.mk "Yesterday" "The Beatles" (some 1965)] : List TrackRec) ≠ [] ∧
    (runMain (Args.mk (some "New Mix") (some "Old Mix") false false) true
        [TrackRec.mk "Yesterday" "The Beatles" (some 1965)] [] "user1"
        (pureEnv (fun _ => [])) (fun _ => [])).2.head? =
      some (WriteOp.create (some "New Mix") false importDescription) :=
  ⟨by decide,
    C9_unconditional_create (Args.mk (some "New Mix") (some "Old Mix") false false)
      [TrackRec.mk "Yesterday" "The Beatles" (some 1965)] [] "user1"
      (pureEnv (fun _ => [])) (fun _ => []) (by decide)⟩

/-- Claim C1 is violated by the code (a slip contradicting the program's own
`--spotify-name` help text, which says the name is ignored when
`--use-existing` is set): a reuse-mode run whose name matches no playlist
does exit with the "not found" failure (exit code 1), but its write trace is
not empty — the unconditional `create_playlist` call before the branch has
already created a playlist.  Zero item additions and removals do hold. -/
theorem C1_reuse_not_found_trace :
    runMain (Args.mk (some "New Name") (some "Missing List") false false) true
        [TrackRec.mk "Yesterday" "The Beatles" (some 1965)] [] "user1"
        (pureEnv (fun _ => [])) (fun _ => []) =
      (RunResult.exited 1,
        [WriteOp.create (some "New Name") false importDescription]) := by
  have hfind : find_user_playlist_by_name [] "user1" "Missing List" = none := by
    rw [find_user_playlist_by_name, findAux]
    rfl
  rw [runMain, if_neg (by simp), if_neg (by simp), if_pos (by decide)]
  rw [show (Args.mk (some "New Name") (some "Missing List") false false).useExisting.getD ""
      = "Missing List" from rfl]
  rw [hfind, if_pos (by decide)]

/-- Claim C2 is violated by the code in the same way: a run supplying
neither `--spotify-name` nor `--use-existing` does exit with code 1, but
only after the unconditional `create_playlist` call has already created a
playlist (named `None`), so partial work was attempted. -/
theorem C2_usage_error_trace :
    runMain (Args.mk none none false false) true
        [TrackRec.mk "Yesterday" "The Beatles" (some 1965)] [] "user1"
        (pureEnv (fun _ => [])) (fun _ => []) =
      (RunResult.exited 1, [WriteOp.create none false importDescription]) := by
  rw [runMain]
  rfl

end SpotifyImporter
